import Mathlib

/-!
# Verification of the NFTMarketplace contract

Shallow embedding of the Solidity contract `NFTMarketplace` (the
auction-including variant, Solidity 0.8.18).  Conventions:

* Addresses are `Nat`; `0` is `address(0)`.  Money amounts and timestamps
  are `Nat` (uint256 overflow is irrelevant here: the contract only adds
  attached values and counters, and reaching `2^256` is impossible in any
  execution we quantify over; counters use checked arithmetic otherwise).
* Each external call is a function from the pre-state and the message
  context (`msg.sender`, `msg.value`, `block.timestamp` where read) to
  `Except Err ...`.  An `Except.error` models an EVM revert: the whole
  call rolls back and the pre-state is kept, which is what `applyCall`
  implements.  Payable functions credit `msg.value` to the contract
  balance on entry; a revert returns it.
* The inherited OpenZeppelin ERC721 internals used by the contract
  (`_mint`, `_transfer`, `ERC721URIStorage._setTokenURI`, `ownerOf`) are
  embedded with their standard semantics: `_mint` requires a non-zero
  recipient and an unminted id, `_transfer` requires the token to exist,
  `from` to be the current token owner and `to` non-zero, `ownerOf`
  reverts on an unminted id.  `Counters.decrement` reverts on underflow.
  `payable(a).transfer(x)` reverts if the contract balance is below `x`
  and otherwise succeeds, recorded as an outgoing `(recipient, amount)`
  pair.
* The emitted `MarketItemCreated` event payload coincides with the
  stored `MarketItem` record, so the record doubles as the event value.
-/

/-- `struct MarketItem`: the listing record of one token.  `owner` is the
custodian of record ("holder" in the spec), `seller` the lister. -/
structure MarketItem where
  tokenId : Nat
  seller : Nat
  owner : Nat
  price : Nat
  sold : Bool
deriving DecidableEq

/-- Solidity mapping default value for `MarketItem`. -/
def MarketItem.default0 : MarketItem := ⟨0, 0, 0, 0, false⟩

/-- `struct Auction`: per-token auction state.  `highestBidder = 0`
means "no bidder yet" (`address(0)`). -/
structure Auction where
  startPrice : Nat
  endTimestamp : Nat
  highestBidder : Nat
  highestBid : Nat
  active : Bool
deriving DecidableEq

/-- Errors: each `require` failure or low-level revert of the contract,
named after the spec's taxonomy where the spec names it. -/
inductive Err where
  | invalidPrice            -- "Price must be at least 1 wei"
  | feeMismatch             -- "Price must be equal to listing price"
  | priceMismatch           -- "Please submit the asking price ..."
  | notOwner                -- "Only item owner can perform this operation"
  | notAuthorized           -- owner-only operations
  | noActiveAuction         -- "No active auction for this token."
  | auctionEnded            -- "The auction has already ended."
  | auctionStillActive      -- "The auction has not ended yet."
  | bidTooLow               -- "Bid must be higher than the current highest bid."
  | nothingToWithdraw       -- "You do not have any bids to withdraw ..."
  | invalidTokenId          -- ERC721: query/transfer of nonexistent token
  | transferFromIncorrectOwner -- ERC721: transfer from incorrect owner
  | transferToZero          -- ERC721: transfer to the zero address
  | mintToZero              -- ERC721: mint to the zero address
  | tokenAlreadyMinted      -- ERC721: token already minted
  | insufficientBalance     -- address.transfer with balance < amount
  | counterUnderflow        -- Counters: decrement overflow
  | arithmeticUnderflow     -- checked uint256 subtraction underflow
  | indexOutOfBounds        -- array write past its length
deriving DecidableEq

/-- The whole storage of the deployed contract, together with the two
constants fixed at deployment (`thisAddr` = `address(this)`, `owner` =
the operator set in the constructor) and the contract's ether balance. -/
structure State where
  thisAddr : Nat
  owner : Nat
  tokenIds : Nat                      -- Counters.Counter `_tokenIds`
  itemsSold : Nat                     -- Counters.Counter `_itemsSold`
  listingPrice : Nat
  idToMarketItem : Nat → MarketItem
  auctions : Nat → Auction
  bids : Nat → Nat → Nat              -- `_bids[tokenId][bidder]`
  tokenOwner : Nat → Nat              -- ERC721 ownership; 0 = not minted
  tokenURIs : Nat → String            -- ERC721URIStorage
  balance : Nat                       -- contract ether balance

/-- Pointwise update of a map. -/
def upd {α : Type} (f : Nat → α) (k : Nat) (v : α) : Nat → α :=
  fun i => if i = k then v else f i

/-- Pointwise update of a two-level map. -/
def upd2 (f : Nat → Nat → Nat) (k b v : Nat) : Nat → Nat → Nat :=
  fun t => if t = k then upd (f t) b v else f t

/-- OpenZeppelin `ERC721._mint`. -/
def ercMint (s : State) (toAddr tokenId : Nat) : Except Err State :=
  if toAddr = 0 then .error .mintToZero
  else if s.tokenOwner tokenId ≠ 0 then .error .tokenAlreadyMinted
  else .ok { s with tokenOwner := upd s.tokenOwner tokenId toAddr }

/-- OpenZeppelin `ERC721._transfer` (plain, no receiver hook). -/
def ercTransfer (s : State) (fr toAddr tokenId : Nat) : Except Err State :=
  if s.tokenOwner tokenId = 0 then .error .invalidTokenId
  else if s.tokenOwner tokenId ≠ fr then .error .transferFromIncorrectOwner
  else if toAddr = 0 then .error .transferToZero
  else .ok { s with tokenOwner := upd s.tokenOwner tokenId toAddr }

/-- OpenZeppelin `ERC721URIStorage._setTokenURI`. -/
def ercSetTokenURI (s : State) (tokenId : Nat) (uri : String) : Except Err State :=
  if s.tokenOwner tokenId = 0 then .error .invalidTokenId
  else .ok { s with tokenURIs := upd s.tokenURIs tokenId uri }

/-- `payable(to).transfer(amount)`: reverts when the balance is short,
otherwise debits the balance and records the outgoing transfer. -/
def ethSend (s : State) (toAddr amount : Nat) : Except Err (State × (Nat × Nat)) :=
  if s.balance < amount then .error .insufficientBalance
  else .ok ({ s with balance := s.balance - amount }, (toAddr, amount))

/-- `createMarketItem(tokenId, price)` (private; runs in the message
context of `createToken`, whose `msg.value` is already credited).  The
returned `MarketItem` is also the `MarketItemCreated` event payload. -/
def createMarketItem (s : State) (sender value tokenId price : Nat) :
    Except Err (State × MarketItem) :=
  if price = 0 then .error .invalidPrice
  else if value ≠ s.listingPrice then .error .feeMismatch
  else
    let item : MarketItem := ⟨tokenId, sender, s.thisAddr, price, false⟩
    let s1 := { s with idToMarketItem := upd s.idToMarketItem tokenId item }
    match ercTransfer s1 sender s1.thisAddr tokenId with
    | .error e => .error e
    | .ok s2 => .ok (s2, item)

/-- `createToken(tokenURI, price)` (public payable): increments the id
counter, mints, sets the URI, lists the token.  Returns the new id and
the emitted event payload. -/
def createToken (s : State) (sender value : Nat) (uri : String) (price : Nat) :
    Except Err (State × Nat × MarketItem) :=
  let s0 := { s with balance := s.balance + value }
  let newTokenId := s0.tokenIds + 1
  let s1 := { s0 with tokenIds := newTokenId }
  match ercMint s1 sender newTokenId with
  | .error e => .error e
  | .ok s2 =>
    match ercSetTokenURI s2 newTokenId uri with
    | .error e => .error e
    | .ok s3 =>
      match createMarketItem s3 sender value newTokenId price with
      | .error e => .error e
      | .ok (s4, item) => .ok (s4, newTokenId, item)

/-- `resellToken(tokenId, price)` (public payable). -/
def resellToken (s : State) (sender value tokenId price : Nat) : Except Err State :=
  let s0 := { s with balance := s.balance + value }
  if (s0.idToMarketItem tokenId).owner ≠ sender then .error .notOwner
  else if value ≠ s0.listingPrice then .error .feeMismatch
  else
    let item0 := s0.idToMarketItem tokenId
    let item := { item0 with sold := false, price := price, seller := sender, owner := s0.thisAddr }
    let s1 := { s0 with idToMarketItem := upd s0.idToMarketItem tokenId item }
    if s1.itemsSold = 0 then .error .counterUnderflow
    else
      let s2 := { s1 with itemsSold := s1.itemsSold - 1 }
      ercTransfer s2 sender s2.thisAddr tokenId

/-- `createMarketSale(tokenId)` (public payable): the only `require` is
the price equality; then the listing is mutated, the sold counter is
incremented, custody moves to the buyer, and only the listing fee is
paid out (to the operator — the seller gets nothing on this path). -/
def createMarketSale (s : State) (sender value tokenId : Nat) :
    Except Err (State × List (Nat × Nat)) :=
  let s0 := { s with balance := s.balance + value }
  if value ≠ (s0.idToMarketItem tokenId).price then .error .priceMismatch
  else
    let item0 := s0.idToMarketItem tokenId
    let item := { item0 with owner := sender, sold := true }
    let s1 := { s0 with idToMarketItem := upd s0.idToMarketItem tokenId item, itemsSold := s0.itemsSold + 1 }
    match ercTransfer s1 s1.thisAddr sender tokenId with
    | .error e => .error e
    | .ok s2 =>
      match ethSend s2 s2.owner s2.listingPrice with
      | .error e => .error e
      | .ok (s3, p) => .ok (s3, [p])

/-- `startAuction(tokenId, startPrice, endTimestamp)`: authorization is
against the ERC721 owner of record (`ownerOf`), not the listing. -/
def startAuction (s : State) (sender tokenId startPrice endTimestamp : Nat) :
    Except Err State :=
  if s.tokenOwner tokenId = 0 then .error .invalidTokenId
  else if sender ≠ s.tokenOwner tokenId then .error .notAuthorized
  else .ok { s with auctions := upd s.auctions tokenId ⟨startPrice, endTimestamp, 0, 0, true⟩ }

/-- `finalizeAuction(tokenId)`: `msg.sender` is never read by the source,
so the embedding takes no sender — any caller behaves identically. -/
def finalizeAuction (s : State) (tokenId now : Nat) :
    Except Err (State × List (Nat × Nat)) :=
  if (s.auctions tokenId).active = false then .error .noActiveAuction
  else if now < (s.auctions tokenId).endTimestamp then .error .auctionStillActive
  else
    let a0 := s.auctions tokenId
    let a1 := { a0 with active := false }
    let s1 := { s with auctions := upd s.auctions tokenId a1 }
    if (s1.auctions tokenId).highestBidder = 0 then .ok (s1, [])
    else
      match ercTransfer s1 s1.thisAddr ((s1.auctions tokenId).highestBidder) tokenId with
      | .error e => .error e
      | .ok s2 =>
        let s3 := { s2 with bids := upd2 s2.bids tokenId ((s2.auctions tokenId).highestBidder) 0 }
        match ethSend s3 ((s3.idToMarketItem tokenId).seller)
            ((s3.auctions tokenId).highestBid) with
        | .error e => .error e
        | .ok (s4, p) => .ok (s4, [p])

/-- `placeBid(tokenId)` (public payable).  Note the source both credits
the outbid leader's `_bids` entry with the previous highest bid and then
overwrites the new leader's own entry with `msg.value`. -/
def placeBid (s : State) (sender value tokenId now : Nat) : Except Err State :=
  let s0 := { s with balance := s.balance + value }
  if (s0.auctions tokenId).active = false then .error .noActiveAuction
  else if (s0.auctions tokenId).endTimestamp ≤ now then .error .auctionEnded
  else if value ≤ (s0.auctions tokenId).highestBid then .error .bidTooLow
  else
    let a := s0.auctions tokenId
    let credited := s0.bids tokenId a.highestBidder + a.highestBid
    let s1 := if a.highestBidder ≠ 0 then
        { s0 with bids := upd2 s0.bids tokenId a.highestBidder credited }
      else s0
    let a2 := { a with highestBidder := sender, highestBid := value }
    let s2 := { s1 with auctions := upd s1.auctions tokenId a2 }
    .ok { s2 with bids := upd2 s2.bids tokenId sender value }

/-- `withdrawBid(tokenId)`: zeroes the entry before transferring. -/
def withdrawBid (s : State) (sender tokenId : Nat) :
    Except Err (State × List (Nat × Nat)) :=
  let bidAmount := s.bids tokenId sender
  if bidAmount = 0 then .error .nothingToWithdraw
  else
    let s1 := { s with bids := upd2 s.bids tokenId sender 0 }
    match ethSend s1 sender bidAmount with
    | .error e => .error e
    | .ok (s2, p) => .ok (s2, [p])

/-- `updateListingPrice(_listingPrice)` (public payable, operator only). -/
def updateListingPrice (s : State) (sender value newListingPrice : Nat) :
    Except Err State :=
  let s0 := { s with balance := s.balance + value }
  if s0.owner ≠ sender then .error .notAuthorized
  else .ok { s0 with listingPrice := newListingPrice }

/-- The ids `1..tokenIds` whose listing is held by the marketplace,
in the scan order of `fetchMarketItems`'s loop. -/
def heldByMarket (s : State) : Nat → Bool :=
  fun i => decide ((s.idToMarketItem (i + 1)).owner = s.thisAddr)

/-- The listings collected by `fetchMarketItems`'s loop, in scan order. -/
def marketMatches (s : State) : List MarketItem :=
  ((List.range s.tokenIds).filter (heldByMarket s)).map (fun i => s.idToMarketItem (i + 1))

/-- `fetchMarketItems()` (view): allocates an array of length
`_tokenIds.current() - _itemsSold.current()` (checked subtraction) and
fills it with the marketplace-held listings in scan order.  A write past
the array length is an out-of-bounds revert; unfilled trailing slots
keep the zero-initialized `MarketItem`. -/
def fetchMarketItems (s : State) : Except Err (List MarketItem) :=
  if s.tokenIds < s.itemsSold then .error .arithmeticUnderflow
  else
    let unsoldItemCount := s.tokenIds - s.itemsSold
    let found := marketMatches s
    if unsoldItemCount < found.length then .error .indexOutOfBounds
    else .ok (found ++ List.replicate (unsoldItemCount - found.length) MarketItem.default0)

/-- One external write call with its message context (the complete
external write surface of the contract). -/
inductive Call where
  | createToken (sender value : Nat) (uri : String) (price : Nat)
  | resellToken (sender value tokenId price : Nat)
  | createMarketSale (sender value tokenId : Nat)
  | startAuction (sender tokenId startPrice endTimestamp : Nat)
  | finalizeAuction (sender tokenId now : Nat)
  | placeBid (sender value tokenId now : Nat)
  | withdrawBid (sender tokenId : Nat)
  | updateListingPrice (sender value newListingPrice : Nat)

/-- `msg.sender` of a call. -/
def Call.sender : Call → Nat
  | .createToken s _ _ _ => s
  | .resellToken s _ _ _ => s
  | .createMarketSale s _ _ => s
  | .startAuction s _ _ _ => s
  | .finalizeAuction s _ _ => s
  | .placeBid s _ _ _ => s
  | .withdrawBid s _ => s
  | .updateListingPrice s _ _ => s

/-- Execute one call, keeping only the state transition. -/
def stepCall (s : State) (c : Call) : Except Err State :=
  match c with
  | .createToken sender value uri price => (createToken s sender value uri price).map (·.1)
  | .resellToken sender value tokenId price => resellToken s sender value tokenId price
  | .createMarketSale sender value tokenId =>
      (createMarketSale s sender value tokenId).map (·.1)
  | .startAuction sender tokenId startPrice endTimestamp =>
      startAuction s sender tokenId startPrice endTimestamp
  | .finalizeAuction _ tokenId now => (finalizeAuction s tokenId now).map (·.1)
  | .placeBid sender value tokenId now => placeBid s sender value tokenId now
  | .withdrawBid sender tokenId => (withdrawBid s sender tokenId).map (·.1)
  | .updateListingPrice sender value newListingPrice =>
      updateListingPrice s sender value newListingPrice

/-- EVM call semantics: a revert leaves the pre-state untouched. -/
def applyCall (s : State) (c : Call) : State :=
  match stepCall s c with
  | .ok s' => s'
  | .error _ => s

/-- The storage right after the constructor runs: empty tables,
`listingPrice = 0.025 ether`, operator = deployer. -/
def initState (thisAddr ownerAddr : Nat) : State :=
  { thisAddr := thisAddr
    owner := ownerAddr
    tokenIds := 0
    itemsSold := 0
    listingPrice := 25000000000000000
    idToMarketItem := fun _ => MarketItem.default0
    auctions := fun _ => ⟨0, 0, 0, 0, false⟩
    bids := fun _ _ => 0
    tokenOwner := fun _ => 0
    tokenURIs := fun _ => ""
    balance := 0 }

/-- States reachable through the contract's external write surface.  The
contract address is a fresh non-zero address distinct from the deployer,
and `msg.sender` of an external call is never `address(0)` nor the
contract itself (the contract contains no self-calls). -/
inductive Reachable : State → Prop where
  | deploy (thisAddr ownerAddr : Nat) (h0 : thisAddr ≠ 0) (h1 : ownerAddr ≠ 0)
      (h2 : ownerAddr ≠ thisAddr) : Reachable (initState thisAddr ownerAddr)
  | call (s : State) (c : Call) (hs : Reachable s) (h0 : c.sender ≠ 0)
      (h1 : c.sender ≠ s.thisAddr) : Reachable (applyCall s c)

/-- `0.025 ether` in wei: the deployed listing fee. -/
def feeWei : Nat := 25000000000000000

/-- A concrete metadata URI for the demonstration traces. -/
def demoURI : String := "u"

/-- Demonstration trace: deployment (contract address 1, operator 2). -/
def demo0 : State := initState 1 2

/-- ... address 3 mints and lists token 1 at price 100. -/
def demo1 : State := applyCall demo0 (Call.createToken 3 feeWei demoURI 100)

/-- ... address 6 buys token 1 for 100. -/
def demo2 : State := applyCall demo1 (Call.createMarketSale 6 100 1)

/-- ... address 6 starts an auction on token 1 (floor 10, end 1000). -/
def demo3 : State := applyCall demo2 (Call.startAuction 6 1 10 1000)

/-- ... address 4 bids 50 at time 100. -/
def demo4 : State := applyCall demo3 (Call.placeBid 4 50 1 100)

/-- ... address 5 bids 60 at time 200, outbidding address 4. -/
def demo5 : State := applyCall demo4 (Call.placeBid 5 60 1 200)


/-- Number of listings among ids `1..tokenIds` held by the marketplace. -/
def countThis (s : State) : Nat := (List.range s.tokenIds).countP (heldByMarket s)

/-- State invariant maintained by every reachable state of the contract.
`count_eq` is the bookkeeping identity behind `fetchMarketItems`'s
pre-computed array size; `own_this`/`own_match` relate the listing's
`owner` field to the ERC721 owner of record. -/
structure MarketInv (s : State) : Prop where
  this_ne : s.thisAddr ≠ 0
  op_ne : s.owner ≠ 0
  op_ne_this : s.owner ≠ s.thisAddr
  sold_owner : ∀ id, (s.idToMarketItem id).sold = true →
    (s.idToMarketItem id).owner ≠ s.thisAddr ∧ (s.idToMarketItem id).owner ≠ 0
  count_eq : countThis s + s.itemsSold = s.tokenIds
  own_this : ∀ id, s.tokenOwner id = s.thisAddr → (s.idToMarketItem id).owner = s.thisAddr
  own_match : ∀ id, (s.idToMarketItem id).owner ≠ 0 →
    (s.idToMarketItem id).owner ≠ s.thisAddr → s.tokenOwner id = (s.idToMarketItem id).owner
  minted_le : ∀ id, s.tokenOwner id ≠ 0 → 1 ≤ id ∧ id ≤ s.tokenIds
  item_default : ∀ id, s.tokenIds < id ∨ id = 0 → s.idToMarketItem id = MarketItem.default0
  bidder_ne_this : ∀ id, (s.auctions id).highestBidder ≠ s.thisAddr

theorem upd_self {α : Type} (f : Nat → α) (k : Nat) (v : α) : upd f k v k = v := by
  simp [upd]

theorem upd_other {α : Type} (f : Nat → α) (k : Nat) (v : α) (i : Nat) (h : i ≠ k) :
    upd f k v i = f i := by
  simp [upd, h]

theorem upd_eval {α : Type} (f : Nat → α) (k : Nat) (v : α) (i : Nat) :
    upd f k v i = if i = k then v else f i := rfl

theorem upd2_eval (f : Nat → Nat → Nat) (k b v t x : Nat) :
    upd2 f k b v t x = if t = k then (if x = b then v else f t x) else f t x := by
  by_cases h : t = k <;> simp [upd2, upd, h]

/-- Changing a `Bool` predicate at exactly one point `j < n` changes its
count over `List.range n` by the swap of the two indicator values. -/
theorem countP_range_update (p q : Nat → Bool) (n j : Nat) (hj : j < n)
    (hpq : ∀ i, i ≠ j → p i = q i) :
    (List.range n).countP q + (if p j then 1 else 0)
      = (List.range n).countP p + (if q j then 1 else 0) := by
  induction n with
  | zero => exact absurd hj (Nat.not_lt_zero j)
  | succ n ih =>
    rw [List.range_succ, List.countP_append, List.countP_append]
    simp only [List.countP_cons, List.countP_nil]
    by_cases h : j = n
    · subst h
      have hc : (List.range j).countP p = (List.range j).countP q := by
        apply List.countP_congr
        intro a ha
        have : a ≠ j := Nat.ne_of_lt (List.mem_range.mp ha)
        simp [hpq a this]
      rw [hc]
      cases hp : p j <;> cases hq : q j <;> simp [hp, hq] <;> omega
    · have hj' : j < n := Nat.lt_of_le_of_ne (Nat.le_of_lt_succ hj) h
      have hn : p n = q n := hpq n (fun hh => h hh.symm)
      have := ih hj'
      rw [hn]
      cases hq : q n <;> simp [hq] <;> omega

/-- Success inversion for `resellToken`: the preconditions that must have
held and a pointwise description of the post-state. -/
theorem resellToken_ok {s s' : State} {sender value tokenId price : Nat}
    (h : resellToken s sender value tokenId price = .ok s') :
    (s.idToMarketItem tokenId).owner = sender ∧ value = s.listingPrice ∧
    s.itemsSold ≠ 0 ∧ s.tokenOwner tokenId = sender ∧ s.thisAddr ≠ 0 ∧
    s'.thisAddr = s.thisAddr ∧ s'.owner = s.owner ∧ s'.tokenIds = s.tokenIds ∧
    s'.itemsSold = s.itemsSold - 1 ∧ s'.listingPrice = s.listingPrice ∧
    s'.auctions = s.auctions ∧ s'.bids = s.bids ∧
    s'.balance = s.balance + value ∧
    (∀ id, s'.idToMarketItem id = if id = tokenId then { (s.idToMarketItem tokenId) with sold := false, price := price, seller := sender, owner := s.thisAddr } else s.idToMarketItem id) ∧
    (∀ id, s'.tokenOwner id = if id = tokenId then s.thisAddr else s.tokenOwner id) := by
  by_cases h1 : (s.idToMarketItem tokenId).owner = sender
  case neg => simp [resellToken, h1] at h
  by_cases h2 : value = s.listingPrice
  case neg => simp [resellToken, h1, h2] at h
  by_cases h3 : s.itemsSold = 0
  case pos => simp [resellToken, h1, h2, h3] at h
  by_cases h4 : s.tokenOwner tokenId = 0
  case pos => simp [resellToken, ercTransfer, h1, h2, h3, h4] at h
  by_cases h5 : s.tokenOwner tokenId = sender
  case neg => simp [resellToken, ercTransfer, h1, h2, h3, h4, h5] at h
  have h7 : sender ≠ 0 := fun hh => h4 (h5.trans hh)
  by_cases h6 : s.thisAddr = 0
  case pos => simp [resellToken, ercTransfer, h1, h2, h3, h4, h5, h6, h7] at h
  simp [resellToken, ercTransfer, h1, h2, h3, h4, h5, h6, h7] at h
  subst h
  refine ⟨h1, h2, h3, h5, h6, rfl, rfl, rfl, rfl, rfl, rfl, rfl, by rw [h2], ?_, ?_⟩
  · intro id
    by_cases hid : id = tokenId <;> simp [upd, hid]
  · intro id
    by_cases hid : id = tokenId <;> simp [upd, hid]

/-- Success inversion for `createMarketSale`. -/
theorem createMarketSale_ok {s s' : State} {sender value tokenId : Nat}
    {outs : List (Nat × Nat)}
    (h : createMarketSale s sender value tokenId = .ok (s', outs)) :
    value = (s.idToMarketItem tokenId).price ∧
    s.tokenOwner tokenId = s.thisAddr ∧ s.thisAddr ≠ 0 ∧ sender ≠ 0 ∧
    s.listingPrice ≤ s.balance + value ∧
    outs = [(s.owner, s.listingPrice)] ∧
    s'.thisAddr = s.thisAddr ∧ s'.owner = s.owner ∧ s'.tokenIds = s.tokenIds ∧
    s'.itemsSold = s.itemsSold + 1 ∧ s'.listingPrice = s.listingPrice ∧
    s'.auctions = s.auctions ∧ s'.bids = s.bids ∧ s'.tokenURIs = s.tokenURIs ∧
    s'.balance = s.balance + value - s.listingPrice ∧
    (∀ id, s'.idToMarketItem id = if id = tokenId then { (s.idToMarketItem tokenId) with owner := sender, sold := true } else s.idToMarketItem id) ∧
    (∀ id, s'.tokenOwner id = if id = tokenId then sender else s.tokenOwner id) := by
  by_cases h1 : value = (s.idToMarketItem tokenId).price
  case neg => simp [createMarketSale, h1] at h
  subst h1
  by_cases h2 : s.tokenOwner tokenId = 0
  case pos => simp [createMarketSale, ercTransfer, h2] at h
  by_cases h3 : s.tokenOwner tokenId = s.thisAddr
  case neg => simp [createMarketSale, ercTransfer, h2, h3] at h
  have h4 : s.thisAddr ≠ 0 := fun hh => h2 (h3.trans hh)
  by_cases h5 : sender = 0
  case pos => simp [createMarketSale, ercTransfer, h2, h3, h4, h5] at h
  by_cases h6 : s.balance + (s.idToMarketItem tokenId).price < s.listingPrice
  case pos => simp [createMarketSale, ercTransfer, ethSend, h2, h3, h4, h5, h6] at h
  simp [createMarketSale, ercTransfer, ethSend, h2, h3, h4, h5, h6] at h
  obtain ⟨hS, hO⟩ := h
  subst hS
  subst hO
  refine ⟨rfl, h3, h4, h5, Nat.le_of_not_lt h6, rfl, rfl, rfl, rfl, rfl, rfl, rfl, rfl, rfl,
    rfl, ?_, ?_⟩
  · intro id
    by_cases hid : id = tokenId <;> simp [upd, hid]
  · intro id
    by_cases hid : id = tokenId <;> simp [upd, hid]

/-- Success inversion for `withdrawBid`. -/
theorem withdrawBid_ok {s s' : State} {sender tokenId : Nat} {outs : List (Nat × Nat)}
    (h : withdrawBid s sender tokenId = .ok (s', outs)) :
    s.bids tokenId sender ≠ 0 ∧ s.bids tokenId sender ≤ s.balance ∧
    outs = [(sender, s.bids tokenId sender)] ∧
    s'.thisAddr = s.thisAddr ∧ s'.owner = s.owner ∧ s'.tokenIds = s.tokenIds ∧
    s'.itemsSold = s.itemsSold ∧ s'.listingPrice = s.listingPrice ∧
    s'.idToMarketItem = s.idToMarketItem ∧ s'.auctions = s.auctions ∧
    s'.tokenOwner = s.tokenOwner ∧ s'.tokenURIs = s.tokenURIs ∧
    s'.balance = s.balance - s.bids tokenId sender ∧
    (∀ t x, s'.bids t x = if t = tokenId ∧ x = sender then 0 else s.bids t x) := by
  by_cases h1 : s.bids tokenId sender = 0
  case pos => simp [withdrawBid, h1] at h
  by_cases h2 : s.balance < s.bids tokenId sender
  case pos => simp [withdrawBid, ethSend, h1, h2] at h
  simp [withdrawBid, ethSend, h1, h2] at h
  obtain ⟨hS, hO⟩ := h
  subst hS
  subst hO
  refine ⟨h1, Nat.le_of_not_lt h2, rfl, rfl, rfl, rfl, rfl, rfl, rfl, rfl, rfl, rfl, rfl, ?_⟩
  intro t x
  by_cases ht : t = tokenId <;> by_cases hx : x = sender <;> simp [upd2, upd, ht, hx]

/-- Success inversion for `startAuction`. -/
theorem startAuction_ok {s s' : State} {sender tokenId startPrice endTimestamp : Nat}
    (h : startAuction s sender tokenId startPrice endTimestamp = .ok s') :
    s.tokenOwner tokenId ≠ 0 ∧ sender = s.tokenOwner tokenId ∧
    s'.thisAddr = s.thisAddr ∧ s'.owner = s.owner ∧ s'.tokenIds = s.tokenIds ∧
    s'.itemsSold = s.itemsSold ∧ s'.listingPrice = s.listingPrice ∧
    s'.idToMarketItem = s.idToMarketItem ∧ s'.bids = s.bids ∧
    s'.tokenOwner = s.tokenOwner ∧ s'.tokenURIs = s.tokenURIs ∧
    s'.balance = s.balance ∧
    (∀ id, s'.auctions id = if id = tokenId then ⟨startPrice, endTimestamp, 0, 0, true⟩ else s.auctions id) := by
  by_cases h1 : s.tokenOwner tokenId = 0
  case pos => simp [startAuction, h1] at h
  by_cases h2 : sender = s.tokenOwner tokenId
  case neg => simp [startAuction, h1, h2] at h
  simp [startAuction, h1, h2] at h
  subst h
  refine ⟨h1, h2, rfl, rfl, rfl, rfl, rfl, rfl, rfl, rfl, rfl, rfl, ?_⟩
  intro id
  by_cases hid : id = tokenId <;> simp [upd, hid]

/-- Success inversion for `updateListingPrice`. -/
theorem updateListingPrice_ok {s s' : State} {sender value newListingPrice : Nat}
    (h : updateListingPrice s sender value newListingPrice = .ok s') :
    sender = s.owner ∧
    s'.thisAddr = s.thisAddr ∧ s'.owner = s.owner ∧ s'.tokenIds = s.tokenIds ∧
    s'.itemsSold = s.itemsSold ∧ s'.listingPrice = newListingPrice ∧
    s'.idToMarketItem = s.idToMarketItem ∧ s'.auctions = s.auctions ∧
    s'.bids = s.bids ∧ s'.tokenOwner = s.tokenOwner ∧ s'.tokenURIs = s.tokenURIs ∧
    s'.balance = s.balance + value := by
  by_cases h1 : s.owner = sender
  case neg => simp [updateListingPrice, h1] at h
  simp [updateListingPrice, h1] at h
  subst h
  exact ⟨h1.symm, rfl, h1.symm, rfl, rfl, rfl, rfl, rfl, rfl, rfl, rfl, rfl⟩

/-- Success inversion for `placeBid`. -/
theorem placeBid_ok {s s' : State} {sender value tokenId now : Nat}
    (h : placeBid s sender value tokenId now = .ok s') :
    (s.auctions tokenId).active = true ∧ now < (s.auctions tokenId).endTimestamp ∧
    (s.auctions tokenId).highestBid < value ∧
    s'.thisAddr = s.thisAddr ∧ s'.owner = s.owner ∧ s'.tokenIds = s.tokenIds ∧
    s'.itemsSold = s.itemsSold ∧ s'.listingPrice = s.listingPrice ∧
    s'.idToMarketItem = s.idToMarketItem ∧ s'.tokenOwner = s.tokenOwner ∧
    s'.tokenURIs = s.tokenURIs ∧ s'.balance = s.balance + value ∧
    (∀ id, s'.auctions id = if id = tokenId then { (s.auctions tokenId) with highestBidder := sender, highestBid := value } else s.auctions id) ∧
    s'.bids tokenId sender = value ∧
    (∀ x, x ≠ sender → x ≠ (s.auctions tokenId).highestBidder →
      s'.bids tokenId x = s.bids tokenId x) ∧
    ((s.auctions tokenId).highestBidder ≠ 0 → (s.auctions tokenId).highestBidder ≠ sender →
      s'.bids tokenId ((s.auctions tokenId).highestBidder)
        = s.bids tokenId ((s.auctions tokenId).highestBidder) + (s.auctions tokenId).highestBid) ∧
    ((s.auctions tokenId).highestBidder = 0 → ∀ x, x ≠ sender →
      s'.bids tokenId x = s.bids tokenId x) ∧
    (∀ t x, t ≠ tokenId → s'.bids t x = s.bids t x) := by
  by_cases h1 : (s.auctions tokenId).active = true
  case neg =>
    have h1' : (s.auctions tokenId).active = false := by
      cases hh : (s.auctions tokenId).active
      · rfl
      · exact absurd hh h1
    simp [placeBid, h1'] at h
  by_cases h2 : (s.auctions tokenId).endTimestamp ≤ now
  case pos => simp [placeBid, h1, h2] at h
  by_cases h3 : value ≤ (s.auctions tokenId).highestBid
  case pos => simp [placeBid, h1, h2, h3] at h
  by_cases hb0 : (s.auctions tokenId).highestBidder = 0
  · simp [placeBid, h1, h2, h3, hb0] at h
    subst h
    refine ⟨h1, Nat.lt_of_not_le h2, Nat.lt_of_not_le h3, rfl, rfl, rfl, rfl, rfl, rfl, rfl,
      rfl, rfl, ?_, ?_, ?_, ?_, ?_, ?_⟩
    · intro id
      by_cases hid : id = tokenId <;> simp [upd, hid, h1]
    · simp [upd2, upd]
    · intro x hx1 _
      simp [upd2, upd, hx1]
    · intro hb _
      exact absurd hb0 hb
    · intro _ x hx1
      simp [upd2, upd, hx1]
    · intro t x ht
      simp [upd2, upd, ht]
  · simp [placeBid, h1, h2, h3, hb0] at h
    subst h
    refine ⟨h1, Nat.lt_of_not_le h2, Nat.lt_of_not_le h3, rfl, rfl, rfl, rfl, rfl, rfl, rfl,
      rfl, rfl, ?_, ?_, ?_, ?_, ?_, ?_⟩
    · intro id
      by_cases hid : id = tokenId <;> simp [upd, hid, h1]
    · simp [upd2, upd]
    · intro x hx1 hx2
      simp [upd2, upd, hx1, hx2]
    · intro _ hbs
      have hbs' : ¬((s.auctions tokenId).highestBidder = sender) := hbs
      simp [upd2, upd, hbs']
    · intro hb
      exact absurd hb hb0
    · intro t x ht
      simp [upd2, upd, ht]

/-- Success inversion for `finalizeAuction`. -/
theorem finalizeAuction_ok {s s' : State} {tokenId now : Nat} {outs : List (Nat × Nat)}
    (h : finalizeAuction s tokenId now = .ok (s', outs)) :
    (s.auctions tokenId).active = true ∧ (s.auctions tokenId).endTimestamp ≤ now ∧
    s'.thisAddr = s.thisAddr ∧ s'.owner = s.owner ∧ s'.tokenIds = s.tokenIds ∧
    s'.itemsSold = s.itemsSold ∧ s'.listingPrice = s.listingPrice ∧
    s'.idToMarketItem = s.idToMarketItem ∧ s'.tokenURIs = s.tokenURIs ∧
    (∀ id, s'.auctions id = if id = tokenId then { (s.auctions tokenId) with active := false } else s.auctions id) ∧
    ((s.auctions tokenId).highestBidder = 0 →
      outs = [] ∧ s'.tokenOwner = s.tokenOwner ∧ s'.bids = s.bids ∧ s'.balance = s.balance) ∧
    ((s.auctions tokenId).highestBidder ≠ 0 →
      s.tokenOwner tokenId = s.thisAddr ∧ (s.auctions tokenId).highestBid ≤ s.balance ∧
      outs = [((s.idToMarketItem tokenId).seller, (s.auctions tokenId).highestBid)] ∧
      s'.balance = s.balance - (s.auctions tokenId).highestBid ∧
      (∀ id, s'.tokenOwner id = if id = tokenId then (s.auctions tokenId).highestBidder else s.tokenOwner id) ∧
      (∀ t x, s'.bids t x = if t = tokenId ∧ x = (s.auctions tokenId).highestBidder then 0 else s.bids t x)) := by
  by_cases h1 : (s.auctions tokenId).active = true
  case neg =>
    have h1' : (s.auctions tokenId).active = false := by
      cases hh : (s.auctions tokenId).active
      · rfl
      · exact absurd hh h1
    simp [finalizeAuction, h1'] at h
  by_cases h2 : now < (s.auctions tokenId).endTimestamp
  case pos => simp [finalizeAuction, h1, h2] at h
  by_cases hb0 : (s.auctions tokenId).highestBidder = 0
  · simp [finalizeAuction, upd, h1, h2, hb0] at h
    obtain ⟨hS, hO⟩ := h
    subst hS
    subst hO
    refine ⟨h1, Nat.le_of_not_lt h2, rfl, rfl, rfl, rfl, rfl, rfl, rfl, ?_, ?_, ?_⟩
    · intro id
      by_cases hid : id = tokenId <;> simp [upd, hid, hb0]
    · intro _
      exact ⟨rfl, rfl, rfl, rfl⟩
    · intro hb
      exact absurd hb0 hb
  · by_cases h3 : s.tokenOwner tokenId = 0
    case pos => simp [finalizeAuction, ercTransfer, upd, h1, h2, hb0, h3] at h
    by_cases h4 : s.tokenOwner tokenId = s.thisAddr
    case neg => simp [finalizeAuction, ercTransfer, upd, h1, h2, hb0, h3, h4] at h
    have h6 : s.thisAddr ≠ 0 := fun hh => h3 (h4.trans hh)
    by_cases h5 : s.balance < (s.auctions tokenId).highestBid
    case pos => simp [finalizeAuction, ercTransfer, ethSend, upd, h1, h2, hb0, h3, h4, h5, h6] at h
    simp [finalizeAuction, ercTransfer, ethSend, upd, h1, h2, hb0, h3, h4, h5, h6] at h
    obtain ⟨hS, hO⟩ := h
    subst hS
    subst hO
    refine ⟨h1, Nat.le_of_not_lt h2, rfl, rfl, rfl, rfl, rfl, rfl, rfl, ?_, ?_, ?_⟩
    · intro id
      by_cases hid : id = tokenId <;> simp [upd, hid]
    · intro hb
      exact absurd hb hb0
    · intro _
      refine ⟨h4, Nat.le_of_not_lt h5, rfl, rfl, ?_, ?_⟩
      · intro id
        by_cases hid : id = tokenId <;> simp [upd, hid]
      · intro t x
        by_cases ht : t = tokenId <;> by_cases hx : x = (s.auctions tokenId).highestBidder <;>
          simp [upd2, upd, ht, hx]

/-- Success inversion for `createToken`. -/
theorem createToken_ok {s s' : State} {sender value price nid : Nat} {uri : String}
    {ev : MarketItem}
    (h : createToken s sender value uri price = .ok (s', nid, ev)) :
    sender ≠ 0 ∧ s.tokenOwner (s.tokenIds + 1) = 0 ∧ price ≠ 0 ∧
    value = s.listingPrice ∧ s.thisAddr ≠ 0 ∧
    nid = s.tokenIds + 1 ∧ ev = ⟨s.tokenIds + 1, sender, s.thisAddr, price, false⟩ ∧
    s'.thisAddr = s.thisAddr ∧ s'.owner = s.owner ∧ s'.tokenIds = s.tokenIds + 1 ∧
    s'.itemsSold = s.itemsSold ∧ s'.listingPrice = s.listingPrice ∧
    s'.auctions = s.auctions ∧ s'.bids = s.bids ∧
    s'.balance = s.balance + value ∧
    s'.tokenURIs = upd s.tokenURIs (s.tokenIds + 1) uri ∧
    (∀ id, s'.idToMarketItem id = if id = s.tokenIds + 1 then ⟨s.tokenIds + 1, sender, s.thisAddr, price, false⟩ else s.idToMarketItem id) ∧
    (∀ id, s'.tokenOwner id = if id = s.tokenIds + 1 then s.thisAddr else s.tokenOwner id) := by
  by_cases h1 : sender = 0
  case pos => simp [createToken, ercMint, h1] at h
  by_cases h2 : s.tokenOwner (s.tokenIds + 1) = 0
  case neg => simp [createToken, ercMint, h1, h2] at h
  by_cases h3 : price = 0
  case pos => simp [createToken, ercMint, ercSetTokenURI, createMarketItem, upd, h1, h2, h3] at h
  by_cases h4 : value = s.listingPrice
  case neg => simp [createToken, ercMint, ercSetTokenURI, createMarketItem, upd, h1, h2, h3, h4] at h
  subst h4
  by_cases h5 : s.thisAddr = 0
  case pos =>
    simp [createToken, ercMint, ercSetTokenURI, createMarketItem, ercTransfer, upd, h1, h2, h3, h5] at h
  simp [createToken, ercMint, ercSetTokenURI, createMarketItem, ercTransfer, upd, h1, h2, h3, h5] at h
  obtain ⟨hS, hN, hE⟩ := h
  subst hS
  subst hN
  subst hE
  refine ⟨h1, h2, h3, rfl, h5, rfl, rfl, rfl, rfl, rfl, rfl, rfl, rfl, rfl, rfl, ?_, ?_, ?_⟩
  · funext i
    simp [upd]
  · intro id
    by_cases hid : id = s.tokenIds + 1 <;> simp [upd, hid]
  · intro id
    by_cases hid : id = s.tokenIds + 1 <;> simp [upd, hid]


theorem inv_initState (thisAddr ownerAddr : Nat) (h0 : thisAddr ≠ 0) (h1 : ownerAddr ≠ 0)
    (h2 : ownerAddr ≠ thisAddr) : MarketInv (initState thisAddr ownerAddr) := by
  refine ⟨h0, h1, h2, ?_, ?_, ?_, ?_, ?_, ?_, ?_⟩
  · intro id hsold
    simp [initState, MarketItem.default0] at hsold
  · simp [countThis, initState]
  · intro id hown
    simp [initState] at hown
    exact absurd hown.symm h0
  · intro id hne _
    simp [initState, MarketItem.default0] at hne
  · intro id hne
    simp [initState] at hne
  · intro id _
    rfl
  · intro id
    simp [initState]
    exact fun hh => h0 hh.symm

/-- An id whose listing has a non-zero `owner` lies in `1..tokenIds`. -/
theorem item_bounds {s : State} (hI : MarketInv s) {tokenId : Nat}
    (h : (s.idToMarketItem tokenId).owner ≠ 0) : 1 ≤ tokenId ∧ tokenId ≤ s.tokenIds := by
  by_contra hc
  have : s.tokenIds < tokenId ∨ tokenId = 0 := by omega
  have hd := hI.item_default tokenId this
  rw [hd] at h
  exact h rfl

/-- `countThis` is unchanged when the scan inputs are unchanged. -/
theorem countThis_congr {s s' : State} (hT : s'.thisAddr = s.thisAddr)
    (hN : s'.tokenIds = s.tokenIds) (hItem : s'.idToMarketItem = s.idToMarketItem) :
    countThis s' = countThis s := by
  unfold countThis heldByMarket
  rw [hT, hN, hItem]

/-- `countThis` after changing the listing table at one in-range id. -/
theorem countThis_update {s s' : State} {tokenId : Nat}
    (hT : s'.thisAddr = s.thisAddr) (hN : s'.tokenIds = s.tokenIds)
    (hItem : ∀ id, id ≠ tokenId → s'.idToMarketItem id = s.idToMarketItem id)
    (h1 : 1 ≤ tokenId) (h2 : tokenId ≤ s.tokenIds) :
    countThis s' + (if heldByMarket s (tokenId - 1) then 1 else 0)
      = countThis s + (if heldByMarket s' (tokenId - 1) then 1 else 0) := by
  unfold countThis
  rw [hN]
  apply countP_range_update
  · omega
  · intro i hi
    unfold heldByMarket
    rw [hT, hItem (i + 1) (by omega)]

/-- The invariant transfers along any step that leaves the listing table,
the counters and the token-ownership table unchanged. -/
theorem minv_of_eqs {s s' : State} (hI : MarketInv s)
    (hT : s'.thisAddr = s.thisAddr) (hO : s'.owner = s.owner)
    (hN : s'.tokenIds = s.tokenIds) (hIS : s'.itemsSold = s.itemsSold)
    (hItem : s'.idToMarketItem = s.idToMarketItem) (hTok : s'.tokenOwner = s.tokenOwner)
    (hB : ∀ id, (s'.auctions id).highestBidder ≠ s.thisAddr) : MarketInv s' := by
  refine ⟨hT ▸ hI.this_ne, hO ▸ hI.op_ne, by rw [hO, hT]; exact hI.op_ne_this,
    ?_, ?_, ?_, ?_, ?_, ?_, ?_⟩
  · intro id hs
    rw [hItem, hT]
    exact hI.sold_owner id (by rwa [hItem] at hs)
  · rw [countThis_congr hT hN hItem, hIS, hN]
    exact hI.count_eq
  · intro id hown
    rw [hItem, hT]
    exact hI.own_this id (by rwa [hTok, hT] at hown)
  · intro id h1 h2
    rw [hTok, hItem]
    exact hI.own_match id (by rwa [hItem] at h1) (by rwa [hItem, hT] at h2)
  · intro id hne
    rw [hN]
    exact hI.minted_le id (by rwa [hTok] at hne)
  · intro id hid
    rw [hItem]
    exact hI.item_default id (by rwa [hN] at hid)
  · intro id
    rw [hT]
    exact hB id

theorem minv_startAuction {s s' : State} {sender tokenId startPrice endTimestamp : Nat}
    (hI : MarketInv s) (hsT : sender ≠ s.thisAddr)
    (h : startAuction s sender tokenId startPrice endTimestamp = .ok s') : MarketInv s' := by
  obtain ⟨h1, h2, hT, hO, hN, hIS, hL, hItem, hBids, hTok, hU, hBal, hA⟩ := startAuction_ok h
  refine minv_of_eqs hI hT hO hN hIS hItem hTok ?_
  intro id
  rw [hA id]
  by_cases hid : id = tokenId
  · simp [hid]
    exact fun hh => hI.this_ne hh.symm
  · simp [hid]
    exact hI.bidder_ne_this id

theorem minv_placeBid {s s' : State} {sender value tokenId now : Nat}
    (hI : MarketInv s) (hsT : sender ≠ s.thisAddr)
    (h : placeBid s sender value tokenId now = .ok s') : MarketInv s' := by
  obtain ⟨h1, h2, h3, hT, hO, hN, hIS, hL, hItem, hTok, hU, hBal, hA, _⟩ := placeBid_ok h
  refine minv_of_eqs hI hT hO hN hIS hItem hTok ?_
  intro id
  rw [hA id]
  by_cases hid : id = tokenId
  · simp [hid]
    exact hsT
  · simp [hid]
    exact hI.bidder_ne_this id

theorem minv_withdrawBid {s s' : State} {sender tokenId : Nat} {outs : List (Nat × Nat)}
    (hI : MarketInv s) (h : withdrawBid s sender tokenId = .ok (s', outs)) : MarketInv s' := by
  obtain ⟨h1, h2, hOuts, hT, hO, hN, hIS, hL, hItem, hAuc, hTok, hU, hBal, hBids⟩ :=
    withdrawBid_ok h
  refine minv_of_eqs hI hT hO hN hIS hItem hTok ?_
  intro id
  rw [hAuc]
  exact hI.bidder_ne_this id

theorem minv_updateListingPrice {s s' : State} {sender value newListingPrice : Nat}
    (hI : MarketInv s) (h : updateListingPrice s sender value newListingPrice = .ok s') :
    MarketInv s' := by
  obtain ⟨h1, hT, hO, hN, hIS, hL, hItem, hAuc, hBids, hTok, hU, hBal⟩ :=
    updateListingPrice_ok h
  refine minv_of_eqs hI hT hO hN hIS hItem hTok ?_
  intro id
  rw [hAuc]
  exact hI.bidder_ne_this id

theorem minv_finalizeAuction {s s' : State} {tokenId now : Nat} {outs : List (Nat × Nat)}
    (hI : MarketInv s) (h : finalizeAuction s tokenId now = .ok (s', outs)) : MarketInv s' := by
  obtain ⟨h1, h2, hT, hO, hN, hIS, hL, hItem, hU, hA, hNoBid, hBid⟩ := finalizeAuction_ok h
  have hBne : ∀ id, (s'.auctions id).highestBidder ≠ s.thisAddr := by
    intro id
    rw [hA id]
    by_cases hid : id = tokenId
    · simp [hid]
      exact hI.bidder_ne_this tokenId
    · simp [hid]
      exact hI.bidder_ne_this id
  by_cases hb0 : (s.auctions tokenId).highestBidder = 0
  · obtain ⟨hOuts, hTok, hBids, hBal⟩ := hNoBid hb0
    exact minv_of_eqs hI hT hO hN hIS hItem hTok hBne
  · obtain ⟨hOwn, hBal0, hOuts, hBal, hTok, hBids⟩ := hBid hb0
    have hbnd := hI.minted_le tokenId (by rw [hOwn]; exact hI.this_ne)
    refine ⟨hT ▸ hI.this_ne, hO ▸ hI.op_ne, by rw [hO, hT]; exact hI.op_ne_this,
      ?_, ?_, ?_, ?_, ?_, ?_, ?_⟩
    · intro id hs
      rw [hItem, hT]
      exact hI.sold_owner id (by rwa [hItem] at hs)
    · rw [countThis_congr hT hN hItem, hIS, hN]
      exact hI.count_eq
    · intro id hown
      rw [hTok id, hT] at hown
      rw [hItem, hT]
      by_cases hid : id = tokenId
      · rw [if_pos hid] at hown
        exact absurd hown (hI.bidder_ne_this tokenId)
      · rw [if_neg hid] at hown
        exact hI.own_this id hown
    · intro id hh1 hh2
      rw [hItem] at hh1 hh2
      rw [hTok id, hItem]
      by_cases hid : id = tokenId
      · subst hid
        have := hI.own_this id hOwn
        rw [hT] at hh2
        exact absurd this hh2
      · rw [if_neg hid]
        exact hI.own_match id hh1 (by rwa [hT] at hh2)
    · intro id hne
      rw [hTok id] at hne
      rw [hN]
      by_cases hid : id = tokenId
      · subst hid
        exact hI.minted_le id (by rw [hOwn]; exact hI.this_ne)
      · rw [if_neg hid] at hne
        exact hI.minted_le id hne
    · intro id hid
      rw [hItem]
      exact hI.item_default id (by rwa [hN] at hid)
    · intro id
      rw [hT]
      exact hBne id

theorem minv_resellToken {s s' : State} {sender value tokenId price : Nat}
    (hI : MarketInv s) (hs0 : sender ≠ 0) (hsT : sender ≠ s.thisAddr)
    (h : resellToken s sender value tokenId price = .ok s') : MarketInv s' := by
  obtain ⟨h1, h2, h3, h4, h5, hT, hO, hN, hIS, hL, hAuc, hBids, hBal, hItem, hTok⟩ :=
    resellToken_ok h
  have hbnd : 1 ≤ tokenId ∧ tokenId ≤ s.tokenIds := item_bounds hI (by rw [h1]; exact hs0)
  have hidx : tokenId - 1 + 1 = tokenId := by omega
  have hcount : countThis s' = countThis s + 1 := by
    have hupdate := countThis_update hT hN
      (fun id hid => by rw [hItem id, if_neg hid]) hbnd.1 hbnd.2
    have hpj : heldByMarket s (tokenId - 1) = false := by
      unfold heldByMarket
      rw [hidx, h1]
      simp [hsT]
    have hqj : heldByMarket s' (tokenId - 1) = true := by
      unfold heldByMarket
      rw [hidx, hItem tokenId, if_pos rfl, hT]
      simp
    rw [hpj, hqj] at hupdate
    simp at hupdate
    omega
  refine ⟨hT ▸ hI.this_ne, hO ▸ hI.op_ne, by rw [hO, hT]; exact hI.op_ne_this,
    ?_, ?_, ?_, ?_, ?_, ?_, ?_⟩
  · intro id hs
    rw [hItem id] at hs
    rw [hItem id, hT]
    by_cases hid : id = tokenId
    · rw [if_pos hid] at hs
      simp at hs
    · rw [if_neg hid] at hs ⊢
      exact hI.sold_owner id hs
  · rw [hcount, hIS, hN]
    have := hI.count_eq
    omega
  · intro id hown
    rw [hTok id, hT] at hown
    rw [hItem id, hT]
    by_cases hid : id = tokenId
    · rw [if_pos hid]
    · rw [if_neg hid]
      rw [if_neg hid] at hown
      exact hI.own_this id hown
  · intro id hh1 hh2
    rw [hItem id] at hh1 hh2
    rw [hItem id, hTok id]
    by_cases hid : id = tokenId
    · rw [if_pos hid] at hh2
      rw [hT] at hh2
      simp at hh2
    · rw [if_neg hid] at hh1 hh2 ⊢
      rw [if_neg hid]
      exact hI.own_match id hh1 (by rwa [hT] at hh2)
  · intro id hne
    rw [hTok id] at hne
    rw [hN]
    by_cases hid : id = tokenId
    · subst hid
      exact ⟨hbnd.1, hbnd.2⟩
    · rw [if_neg hid] at hne
      exact hI.minted_le id hne
  · intro id hid
    rw [hItem id, if_neg (by rw [hN] at hid; omega : id ≠ tokenId)]
    exact hI.item_default id (by rwa [hN] at hid)
  · intro id
    rw [hAuc, hT]
    exact hI.bidder_ne_this id

theorem minv_createMarketSale {s s' : State} {sender value tokenId : Nat}
    {outs : List (Nat × Nat)}
    (hI : MarketInv s) (hs0 : sender ≠ 0) (hsT : sender ≠ s.thisAddr)
    (h : createMarketSale s sender value tokenId = .ok (s', outs)) : MarketInv s' := by
  obtain ⟨h1, h2, h3, h4, h5, hOuts, hT, hO, hN, hIS, hL, hAuc, hBids, hU, hBal, hItem, hTok⟩ :=
    createMarketSale_ok h
  have hPre : (s.idToMarketItem tokenId).owner = s.thisAddr := hI.own_this tokenId h2
  have hbnd : 1 ≤ tokenId ∧ tokenId ≤ s.tokenIds :=
    hI.minted_le tokenId (by rw [h2]; exact hI.this_ne)
  have hidx : tokenId - 1 + 1 = tokenId := by omega
  have hcount : countThis s' + 1 = countThis s := by
    have hupdate := countThis_update hT hN
      (fun id hid => by rw [hItem id, if_neg hid]) hbnd.1 hbnd.2
    have hpj : heldByMarket s (tokenId - 1) = true := by
      unfold heldByMarket
      rw [hidx, hPre]
      simp
    have hqj : heldByMarket s' (tokenId - 1) = false := by
      unfold heldByMarket
      rw [hidx, hItem tokenId, if_pos rfl, hT]
      simp [hsT]
    rw [hpj, hqj] at hupdate
    simp at hupdate
    omega
  refine ⟨hT ▸ hI.this_ne, hO ▸ hI.op_ne, by rw [hO, hT]; exact hI.op_ne_this,
    ?_, ?_, ?_, ?_, ?_, ?_, ?_⟩
  · intro id hs
    rw [hItem id, hT]
    by_cases hid : id = tokenId
    · rw [if_pos hid]
      exact ⟨hsT, hs0⟩
    · rw [if_neg hid]
      rw [hItem id, if_neg hid] at hs
      exact hI.sold_owner id hs
  · rw [hIS, hN]
    have := hI.count_eq
    omega
  · intro id hown
    rw [hTok id, hT] at hown
    rw [hItem id, hT]
    by_cases hid : id = tokenId
    · rw [if_pos hid] at hown
      exact absurd hown hsT
    · rw [if_neg hid] at hown
      rw [if_neg hid]
      exact hI.own_this id hown
  · intro id hh1 hh2
    rw [hItem id] at hh1 hh2
    rw [hItem id, hTok id]
    by_cases hid : id = tokenId
    · simp [hid]
    · rw [if_neg hid] at hh1 hh2 ⊢
      rw [if_neg hid]
      exact hI.own_match id hh1 (by rwa [hT] at hh2)
  · intro id hne
    rw [hTok id] at hne
    rw [hN]
    by_cases hid : id = tokenId
    · subst hid
      exact ⟨hbnd.1, hbnd.2⟩
    · rw [if_neg hid] at hne
      exact hI.minted_le id hne
  · intro id hid
    rw [hItem id, if_neg (by rw [hN] at hid; omega : id ≠ tokenId)]
    exact hI.item_default id (by rwa [hN] at hid)
  · intro id
    rw [hAuc, hT]
    exact hI.bidder_ne_this id

theorem minv_createToken {s s' : State} {sender value price nid : Nat} {uri : String}
    {ev : MarketItem}
    (hI : MarketInv s) (hsT : sender ≠ s.thisAddr)
    (h : createToken s sender value uri price = .ok (s', nid, ev)) : MarketInv s' := by
  obtain ⟨h1, h2, h3, h4, h5, hNid, hEv, hT, hO, hN, hIS, hL, hAuc, hBids, hBal, hU, hItem, hTok⟩ :=
    createToken_ok h
  have hcount : countThis s' = countThis s + 1 := by
    unfold countThis
    rw [hN, List.range_succ, List.countP_append]
    have hinit : (List.range s.tokenIds).countP (heldByMarket s')
        = (List.range s.tokenIds).countP (heldByMarket s) := by
      apply List.countP_congr
      intro a ha
      have hne : a + 1 ≠ s.tokenIds + 1 := by
        have := List.mem_range.mp ha
        omega
      unfold heldByMarket
      rw [hItem (a + 1), if_neg hne, hT]
    have hlast : List.countP (heldByMarket s') [s.tokenIds] = 1 := by
      have : heldByMarket s' s.tokenIds = true := by
        unfold heldByMarket
        rw [hItem (s.tokenIds + 1), if_pos rfl, hT]
        simp
      simp [List.countP_cons, this]
    rw [hinit, hlast]
  refine ⟨hT ▸ hI.this_ne, hO ▸ hI.op_ne, by rw [hO, hT]; exact hI.op_ne_this,
    ?_, ?_, ?_, ?_, ?_, ?_, ?_⟩
  · intro id hs
    rw [hItem id, hT]
    by_cases hid : id = s.tokenIds + 1
    · rw [hItem id, if_pos hid] at hs
      simp at hs
    · rw [if_neg hid]
      rw [hItem id, if_neg hid] at hs
      exact hI.sold_owner id hs
  · rw [hcount, hIS, hN]
    have := hI.count_eq
    omega
  · intro id hown
    rw [hTok id, hT] at hown
    rw [hItem id, hT]
    by_cases hid : id = s.tokenIds + 1
    · rw [if_pos hid]
    · rw [if_neg hid] at hown
      rw [if_neg hid]
      exact hI.own_this id hown
  · intro id hh1 hh2
    rw [hItem id] at hh1 hh2
    rw [hItem id, hTok id]
    by_cases hid : id = s.tokenIds + 1
    · rw [if_pos hid] at hh2
      rw [hT] at hh2
      simp at hh2
    · rw [if_neg hid] at hh1 hh2 ⊢
      rw [if_neg hid]
      exact hI.own_match id hh1 (by rwa [hT] at hh2)
  · intro id hne
    rw [hTok id] at hne
    rw [hN]
    by_cases hid : id = s.tokenIds + 1
    · subst hid
      omega
    · rw [if_neg hid] at hne
      have := hI.minted_le id hne
      omega
  · intro id hid
    rw [hN] at hid
    rw [hItem id, if_neg (by omega : id ≠ s.tokenIds + 1)]
    exact hI.item_default id (by omega)
  · intro id
    rw [hAuc, hT]
    exact hI.bidder_ne_this id

/-- Every call preserves the invariant (a revert preserves it trivially). -/
theorem minv_applyCall {s : State} (c : Call) (hI : MarketInv s)
    (h0 : Call.sender c ≠ 0) (h1 : Call.sender c ≠ s.thisAddr) :
    MarketInv (applyCall s c) := by
  cases c with
  | createToken sender value uri price =>
    simp only [Call.sender] at h0 h1
    cases hC : createToken s sender value uri price with
    | error e =>
      simp only [applyCall, stepCall, hC, Except.map]
      exact hI
    | ok r =>
      have hA : applyCall s (Call.createToken sender value uri price) = r.1 := by
        simp [applyCall, stepCall, hC, Except.map]
      rw [hA]
      exact minv_createToken hI h1 (by rw [hC])
  | resellToken sender value tokenId price =>
    simp only [Call.sender] at h0 h1
    cases hC : resellToken s sender value tokenId price with
    | error e =>
      simp only [applyCall, stepCall, hC]
      exact hI
    | ok s' =>
      have hA : applyCall s (Call.resellToken sender value tokenId price) = s' := by
        simp [applyCall, stepCall, hC]
      rw [hA]
      exact minv_resellToken hI h0 h1 hC
  | createMarketSale sender value tokenId =>
    simp only [Call.sender] at h0 h1
    cases hC : createMarketSale s sender value tokenId with
    | error e =>
      simp only [applyCall, stepCall, hC, Except.map]
      exact hI
    | ok r =>
      have hA : applyCall s (Call.createMarketSale sender value tokenId) = r.1 := by
        simp [applyCall, stepCall, hC, Except.map]
      rw [hA]
      exact minv_createMarketSale hI h0 h1 (by rw [hC])
  | startAuction sender tokenId startPrice endTimestamp =>
    simp only [Call.sender] at h0 h1
    cases hC : startAuction s sender tokenId startPrice endTimestamp with
    | error e =>
      simp only [applyCall, stepCall, hC]
      exact hI
    | ok s' =>
      have hA : applyCall s (Call.startAuction sender tokenId startPrice endTimestamp) = s' := by
        simp [applyCall, stepCall, hC]
      rw [hA]
      exact minv_startAuction hI h1 hC
  | finalizeAuction sender tokenId now =>
    cases hC : finalizeAuction s tokenId now with
    | error e =>
      simp only [applyCall, stepCall, hC, Except.map]
      exact hI
    | ok r =>
      have hA : applyCall s (Call.finalizeAuction sender tokenId now) = r.1 := by
        simp [applyCall, stepCall, hC, Except.map]
      rw [hA]
      exact minv_finalizeAuction hI (by rw [hC])
  | placeBid sender value tokenId now =>
    simp only [Call.sender] at h0 h1
    cases hC : placeBid s sender value tokenId now with
    | error e =>
      simp only [applyCall, stepCall, hC]
      exact hI
    | ok s' =>
      have hA : applyCall s (Call.placeBid sender value tokenId now) = s' := by
        simp [applyCall, stepCall, hC]
      rw [hA]
      exact minv_placeBid hI h1 hC
  | withdrawBid sender tokenId =>
    cases hC : withdrawBid s sender tokenId with
    | error e =>
      simp only [applyCall, stepCall, hC, Except.map]
      exact hI
    | ok r =>
      have hA : applyCall s (Call.withdrawBid sender tokenId) = r.1 := by
        simp [applyCall, stepCall, hC, Except.map]
      rw [hA]
      exact minv_withdrawBid hI (by rw [hC])
  | updateListingPrice sender value newListingPrice =>
    cases hC : updateListingPrice s sender value newListingPrice with
    | error e =>
      simp only [applyCall, stepCall, hC]
      exact hI
    | ok s' =>
      have hA : applyCall s (Call.updateListingPrice sender value newListingPrice) = s' := by
        simp [applyCall, stepCall, hC]
      rw [hA]
      exact minv_updateListingPrice hI hC

/-- Every reachable state satisfies the invariant. -/
theorem reachable_minv {s : State} (h : Reachable s) : MarketInv s := by
  induction h with
  | deploy thisAddr ownerAddr h0 h1 h2 => exact inv_initState thisAddr ownerAddr h0 h1 h2
  | call s c _ h0 h1 ih => exact minv_applyCall c ih h0 h1

/-- If some scanned index fails the predicate, the count is strict. -/
theorem countP_range_lt {p : Nat → Bool} {n j : Nat} (hj : j < n) (hpj : p j = false) :
    (List.range n).countP p < n := by
  induction n with
  | zero => exact absurd hj (Nat.not_lt_zero j)
  | succ n ih =>
    rw [List.range_succ, List.countP_append]
    simp only [List.countP_cons, List.countP_nil]
    have hle : (List.range n).countP p ≤ n := by
      calc (List.range n).countP p ≤ (List.range n).length := List.countP_le_length p
        _ = n := List.length_range n
    by_cases h : j = n
    · subst h
      rw [hpj]
      simp
      omega
    · have := ih (by omega)
      cases hp : p n <;> simp [hp] <;> omega

/-- A state whose listing table holds a buyer-owned item records at least
one sale in `itemsSold`. -/
theorem itemsSold_pos {s : State} (hI : MarketInv s) {tokenId : Nat}
    (h0 : (s.idToMarketItem tokenId).owner ≠ 0)
    (hT : (s.idToMarketItem tokenId).owner ≠ s.thisAddr) : s.itemsSold ≠ 0 := by
  have hbnd := item_bounds hI h0
  have hpj : heldByMarket s (tokenId - 1) = false := by
    unfold heldByMarket
    rw [(by omega : tokenId - 1 + 1 = tokenId)]
    simp [hT]
  have := countP_range_lt (p := heldByMarket s) (n := s.tokenIds) (j := tokenId - 1)
    (by omega) hpj
  have hc := hI.count_eq
  unfold countThis at hc
  omega

/-- `createToken` succeeds whenever the two spec preconditions hold, from
any reachable state. -/
theorem createToken_succeeds {s : State} (hI : MarketInv s) {sender value price : Nat}
    (uri : String) (h0 : sender ≠ 0) (h3 : price ≠ 0) (h4 : value = s.listingPrice) :
    ∃ r, createToken s sender value uri price = .ok r := by
  have hfresh : s.tokenOwner (s.tokenIds + 1) = 0 := by
    by_contra hc
    have := hI.minted_le _ hc
    omega
  cases hC : createToken s sender value uri price with
  | ok r => exact ⟨r, rfl⟩
  | error e =>
    exfalso
    simp [createToken, ercMint, ercSetTokenURI, createMarketItem, ercTransfer, upd, h0, h3, h4,
      hfresh, hI.this_ne] at hC

/-- `resellToken` succeeds from any reachable state when the caller is the
recorded holder and attaches the listing fee — with any new price. -/
theorem resellToken_succeeds {s : State} (hI : MarketInv s) (price : Nat)
    {sender tokenId : Nat} (h0 : sender ≠ 0) (hsT : sender ≠ s.thisAddr)
    (hown : (s.idToMarketItem tokenId).owner = sender) :
    ∃ s', resellToken s sender s.listingPrice tokenId price = .ok s' := by
  have h0' : (s.idToMarketItem tokenId).owner ≠ 0 := by rw [hown]; exact h0
  have hT' : (s.idToMarketItem tokenId).owner ≠ s.thisAddr := by rw [hown]; exact hsT
  have hsold := itemsSold_pos hI h0' hT'
  have htok : s.tokenOwner tokenId = sender := by
    rw [hI.own_match tokenId h0' hT', hown]
  cases hC : resellToken s sender s.listingPrice tokenId price with
  | ok s1 => exact ⟨s1, rfl⟩
  | error e =>
    exfalso
    simp [resellToken, ercTransfer, upd, hown, hsold, htok, h0, hI.this_ne] at hC

/-- `createMarketSale` succeeds whenever the attached value matches the
price, the marketplace is the token's owner of record, the caller is a
non-zero address and the balance covers the fee payout. -/
theorem createMarketSale_succeeds {s : State} {sender value tokenId : Nat}
    (hvp : value = (s.idToMarketItem tokenId).price)
    (hto : s.tokenOwner tokenId = s.thisAddr) (hT : s.thisAddr ≠ 0) (hs0 : sender ≠ 0)
    (hbal : s.listingPrice ≤ s.balance + value) :
    ∃ r, createMarketSale s sender value tokenId = .ok r := by
  have hbal' : ¬ s.balance + (s.idToMarketItem tokenId).price < s.listingPrice := by
    rw [← hvp]
    exact Nat.not_lt.mpr hbal
  cases hC : createMarketSale s sender value tokenId with
  | ok r => exact ⟨r, rfl⟩
  | error e =>
    exfalso
    simp [createMarketSale, ercTransfer, ethSend, upd, hvp, hto, hT, hs0, hbal'] at hC

/-- C3: failure atomicity — every operation of the marketplace that fails
raises its error with the entire post-call state identical to the
pre-call state; no partial state change is observable after a failed
call.  (In the source, some `require`s run after assignments — e.g. the
fee check of `createMarketItem` runs after `_mint` — but the EVM revert
discards those writes, which the embedding mirrors by returning the
pre-state for every `error` outcome.) -/
theorem C3_failure_atomicity (s : State) (c : Call) (e : Err)
    (h : stepCall s c = .error e) : applyCall s c = s := by
  unfold applyCall
  rw [h]

theorem C3_failure_atomicity_witness :
    stepCall demo0 (Call.createMarketSale 3 5 1) = .error .priceMismatch ∧
    applyCall demo0 (Call.createMarketSale 3 5 1) = demo0 :=
  ⟨rfl, C3_failure_atomicity demo0 (Call.createMarketSale 3 5 1) .priceMismatch rfl⟩

/-- C2: `place_bid` fails `NoActiveAuction` when the auction is inactive,
`AuctionEnded` when the time is not strictly before `end_time`,
`BidTooLow` when the value is not strictly above the current highest bid
(ties rejected); a failed bid mutates nothing.  On success the previous
leader's escrow entry is credited with the previous highest bid, the
leader/bid fields are set to the caller and value, and the caller's own
escrow entry is overwritten to the value; each accepted bid strictly
exceeds the previous highest bid, so accepted bids strictly increase. -/
theorem C2_place_bid_spec (s : State) (sender value tokenId now : Nat) :
    ((s.auctions tokenId).active = false →
      placeBid s sender value tokenId now = .error .noActiveAuction) ∧
    ((s.auctions tokenId).active = true → (s.auctions tokenId).endTimestamp ≤ now →
      placeBid s sender value tokenId now = .error .auctionEnded) ∧
    ((s.auctions tokenId).active = true → now < (s.auctions tokenId).endTimestamp →
      value ≤ (s.auctions tokenId).highestBid →
      placeBid s sender value tokenId now = .error .bidTooLow) ∧
    (∀ e, placeBid s sender value tokenId now = .error e →
      applyCall s (Call.placeBid sender value tokenId now) = s) ∧
    ((s.auctions tokenId).active = true → now < (s.auctions tokenId).endTimestamp →
      (s.auctions tokenId).highestBid < value →
      ∃ s', placeBid s sender value tokenId now = .ok s' ∧
        (s'.auctions tokenId).highestBidder = sender ∧
        (s'.auctions tokenId).highestBid = value ∧
        (s'.auctions tokenId).active = true ∧
        (s'.auctions tokenId).endTimestamp = (s.auctions tokenId).endTimestamp ∧
        s'.bids tokenId sender = value ∧
        ((s.auctions tokenId).highestBidder ≠ 0 → (s.auctions tokenId).highestBidder ≠ sender →
          s'.bids tokenId ((s.auctions tokenId).highestBidder)
            = s.bids tokenId ((s.auctions tokenId).highestBidder)
              + (s.auctions tokenId).highestBid) ∧
        (s.auctions tokenId).highestBid < value) := by
  refine ⟨?_, ?_, ?_, ?_, ?_⟩
  · intro h1
    simp [placeBid, h1]
  · intro h1 h2
    simp [placeBid, h1, h2]
  · intro h1 h2 h3
    simp [placeBid, h1, Nat.not_le.mpr h2, h3]
  · intro e h
    simp only [applyCall, stepCall]
    rw [h]
  · intro h1 h2 h3
    have hEx : ∃ s', placeBid s sender value tokenId now = .ok s' := by
      cases hC : placeBid s sender value tokenId now with
      | ok s1 => exact ⟨s1, rfl⟩
      | error e =>
        exfalso
        simp [placeBid, h1, Nat.not_le.mpr h2, Nat.not_le.mpr h3] at hC
    obtain ⟨s', hs'⟩ := hEx
    obtain ⟨hh1, hh2, hh3, hT, hO, hN, hIS, hL, hItem, hTok, hU, hBal, hA, hBS, hBoth,
      hCred, hNoCred, hOther⟩ := placeBid_ok hs'
    refine ⟨s', hs', ?_, ?_, ?_, ?_, hBS, hCred, h3⟩
    · rw [hA tokenId]
      simp
    · rw [hA tokenId]
      simp
    · rw [hA tokenId]
      simp [h1]
    · rw [hA tokenId]
      simp

theorem C2_place_bid_spec_witness :
    ∃ s', placeBid demo3 4 50 1 100 = .ok s' ∧
      (s'.auctions 1).highestBidder = 4 ∧ (s'.auctions 1).highestBid = 50 := by
  have h := (C2_place_bid_spec demo3 4 50 1 100).2.2.2.2 rfl (by decide) (by decide)
  obtain ⟨s', hok, hb, hv, _⟩ := h
  exact ⟨s', hok, hb, hv⟩

/-- C6: `finalize` fails `NoActiveAuction` unless `active = true` and
`AuctionStillActive` unless the time has reached `end_time`; on success
it sets `active = false`, and a second `finalize` on the same auction
fails `NoActiveAuction` with no second transfer or payment — for any
caller, since the source never reads `msg.sender` in `finalizeAuction`
(the embedding therefore takes no caller argument). -/
theorem C6_finalize_twice (s : State) (tokenId now : Nat) :
    ((s.auctions tokenId).active = false →
      finalizeAuction s tokenId now = .error .noActiveAuction) ∧
    ((s.auctions tokenId).active = true → now < (s.auctions tokenId).endTimestamp →
      finalizeAuction s tokenId now = .error .auctionStillActive) ∧
    (∀ s' outs, finalizeAuction s tokenId now = .ok (s', outs) →
      (s'.auctions tokenId).active = false ∧
      ∀ now', finalizeAuction s' tokenId now' = .error .noActiveAuction) := by
  refine ⟨?_, ?_, ?_⟩
  · intro h1
    simp [finalizeAuction, h1]
  · intro h1 h2
    simp [finalizeAuction, h1, h2]
  · intro s' outs h
    obtain ⟨h1, h2, hT, hO, hN, hIS, hL, hItem, hU, hA, _, _⟩ := finalizeAuction_ok h
    have hact : (s'.auctions tokenId).active = false := by
      rw [hA tokenId]
      simp
    exact ⟨hact, fun now' => by simp [finalizeAuction, hact]⟩

theorem C6_finalize_twice_witness :
    finalizeAuction (applyCall demo3 (Call.finalizeAuction 6 1 1000)) 1 2000
      = .error .noActiveAuction := by
  have h := (C6_finalize_twice demo3 1 1000).2.2
    (applyCall demo3 (Call.finalizeAuction 6 1 1000)) [] rfl
  exact h.2 2000

/-- C7: `buy` fails `PriceMismatch` unless the attached value equals the
recorded price; on success it sets `holder = caller`, `sold = true`,
increments the sold counter by exactly one, transfers ERC721 custody to
the caller, and the only outgoing payment is the listing fee to the
operator — the seller is not paid the sale price by this path. -/
theorem C7_buy_spec (s : State) (sender value tokenId : Nat) :
    (value ≠ (s.idToMarketItem tokenId).price →
      createMarketSale s sender value tokenId = .error .priceMismatch) ∧
    (∀ s' outs, createMarketSale s sender value tokenId = .ok (s', outs) →
      (s'.idToMarketItem tokenId).owner = sender ∧
      (s'.idToMarketItem tokenId).sold = true ∧
      s'.itemsSold = s.itemsSold + 1 ∧
      s'.tokenOwner tokenId = sender ∧
      outs = [(s.owner, s.listingPrice)]) := by
  refine ⟨?_, ?_⟩
  · intro h1
    simp [createMarketSale, h1]
  · intro s' outs h
    obtain ⟨h1, h2, h3, h4, h5, hOuts, hT, hO, hN, hIS, hL, hAuc, hBids, hU, hBal, hItem,
      hTok⟩ := createMarketSale_ok h
    refine ⟨?_, ?_, hIS, ?_, hOuts⟩
    · rw [hItem tokenId]
      simp
    · rw [hItem tokenId]
      simp
    · rw [hTok tokenId]
      simp

theorem C7_buy_spec_witness :
    (demo2.idToMarketItem 1).sold = true ∧ demo2.itemsSold = demo1.itemsSold + 1 ∧
    demo2.tokenOwner 1 = 6 := by
  have h := (C7_buy_spec demo1 6 100 1).2 demo2 [(2, feeWei)] rfl
  exact ⟨h.2.1, h.2.2.1, h.2.2.2.1⟩

/-- C4: reentrancy ordering.  In the three operations that pay out value
(`withdraw_bid`, `finalize`, `buy`), all state mutations are committed in
the state that accompanies the outgoing transfer: the escrow entry is
already zero, `active` is already false, `holder`/`sold`/custody are
already updated.  Hence a re-invocation from the post-state cannot pay
the same funds again: the second `withdraw_bid` fails
`NothingToWithdraw`, the second `finalize` fails `NoActiveAuction`, and
a second `buy` of the same token fails (the marketplace no longer owns
it). -/
theorem C4_reentrancy_order :
    (∀ (s : State) (sender tokenId : Nat) (s' : State) (outs : List (Nat × Nat)),
      withdrawBid s sender tokenId = .ok (s', outs) →
      s'.bids tokenId sender = 0 ∧ outs = [(sender, s.bids tokenId sender)] ∧
      withdrawBid s' sender tokenId = .error .nothingToWithdraw) ∧
    (∀ (s : State) (tokenId now : Nat) (s' : State) (outs : List (Nat × Nat)),
      finalizeAuction s tokenId now = .ok (s', outs) →
      (s'.auctions tokenId).active = false ∧
      ∀ now', finalizeAuction s' tokenId now' = .error .noActiveAuction) ∧
    (∀ (s : State) (sender value tokenId : Nat) (s' : State) (outs : List (Nat × Nat)),
      sender ≠ s.thisAddr →
      createMarketSale s sender value tokenId = .ok (s', outs) →
      (s'.idToMarketItem tokenId).owner = sender ∧ (s'.idToMarketItem tokenId).sold = true ∧
      s'.tokenOwner tokenId = sender ∧
      ∀ sender' value', ∃ e, createMarketSale s' sender' value' tokenId = .error e) := by
  refine ⟨?_, ?_, ?_⟩
  · intro s sender tokenId s' outs h
    obtain ⟨h1, h2, hOuts, _, _, _, _, _, _, _, _, _, _, hBids⟩ := withdrawBid_ok h
    have hz : s'.bids tokenId sender = 0 := by
      rw [hBids]
      simp
    exact ⟨hz, hOuts, by simp [withdrawBid, hz]⟩
  · intro s tokenId now s' outs h
    obtain ⟨h1, h2, hT, hO, hN, hIS, hL, hItem, hU, hA, _, _⟩ := finalizeAuction_ok h
    have hact : (s'.auctions tokenId).active = false := by
      rw [hA tokenId]
      simp
    exact ⟨hact, fun now' => by simp [finalizeAuction, hact]⟩
  · intro s sender value tokenId s' outs hsT h
    obtain ⟨h1, h2, h3, h4, h5, hOuts, hT, hO, hN, hIS, hL, hAuc, hBids, hU, hBal, hItem,
      hTok⟩ := createMarketSale_ok h
    have hOwn : (s'.idToMarketItem tokenId).owner = sender := by
      rw [hItem tokenId]
      simp
    have hSold : (s'.idToMarketItem tokenId).sold = true := by
      rw [hItem tokenId]
      simp
    have hTok1 : s'.tokenOwner tokenId = sender := by
      rw [hTok tokenId]
      simp
    refine ⟨hOwn, hSold, hTok1, ?_⟩
    intro sender' value'
    by_cases hv : value' = (s'.idToMarketItem tokenId).price
    · refine ⟨.transferFromIncorrectOwner, ?_⟩
      have hne : ¬ s'.tokenOwner tokenId = s'.thisAddr := by
        rw [hTok1, hT]
        exact hsT
      have hnz : ¬ s'.tokenOwner tokenId = 0 := by
        rw [hTok1]
        exact h4
      simp [createMarketSale, ercTransfer, hv, hnz, hne]
    · exact ⟨.priceMismatch, by simp [createMarketSale, hv]⟩

theorem C4_reentrancy_order_witness :
    withdrawBid (applyCall demo5 (Call.withdrawBid 4 1)) 4 1
      = .error .nothingToWithdraw := by
  have h := C4_reentrancy_order.1 demo5 4 1 (applyCall demo5 (Call.withdrawBid 4 1))
    [(4, 100)] rfl
  exact h.2.2

theorem demo0_reachable : Reachable demo0 :=
  Reachable.deploy 1 2 (by decide) (by decide) (by decide)

theorem demo1_reachable : Reachable demo1 :=
  Reachable.call demo0 (Call.createToken 3 feeWei demoURI 100) demo0_reachable
    (by decide) (by decide)

theorem demo2_reachable : Reachable demo2 :=
  Reachable.call demo1 (Call.createMarketSale 6 100 1) demo1_reachable
    (by decide) (by decide)

/-- C1: escrow conservation FAILS in the code — this theorem evaluates
the claim's own trace and exhibits the divergence.  In the reachable
trace deploy; mint(3, fee, price 100) → token 1; buy(6, 100);
startAuction(6, token 1, floor 10, end 1000); placeBid(A = 4, 50);
placeBid(B = 5, 60), the total value ever attached to `place_bid` is
110 and nothing has been withdrawn or paid out, yet A's escrow entry is
100 (A's own 50 written at bid time plus the 50 credited when outbid),
so the sum of escrow entries plus the highest bid is 100 + 60 + 60 =
220 > 110, and `withdraw_bid(A)` transfers 100 to A — not the 50 the
spec's scenario promises — leaving A's entry 0.  The double-counting
`_bids[msg.sender] = msg.value` in `placeBid` contradicts the source's
own comments ("their bid is stored to allow for a refund", "transferring
the bid amount back") and makes the escrow liabilities exceed deposits. -/
theorem C1_escrow_code_bug :
    demo5.bids 1 4 = 100 ∧ demo5.bids 1 5 = 60 ∧ (demo5.auctions 1).highestBid = 60 ∧
    demo5.bids 1 4 + demo5.bids 1 5 + (demo5.auctions 1).highestBid = 220 ∧
    (withdrawBid demo5 4 1).map (fun r => r.2) = .ok [(4, 100)] ∧
    (applyCall demo5 (Call.withdrawBid 4 1)).bids 1 4 = 0 :=
  ⟨rfl, rfl, rfl, rfl, rfl, rfl⟩

/-- C9 counterexample: the claim asserts that `buy` on a never-minted id
(stored price 0) with attached value 0 SUCCEEDS and that a sold listing
can be bought again.  Both fail on the code: the ERC721 custody transfer
inside `createMarketSale` reverts — with an invalid-token error for the
phantom id, and with an incorrect-owner error for the re-buy of sold
token 1 (held by buyer 6, not the marketplace). -/
theorem C9_phantom_buy_counterexample :
    (demo0.idToMarketItem 7).price = 0 ∧
    createMarketSale demo0 3 0 7 = .error .invalidTokenId ∧
    (demo2.idToMarketItem 1).sold = true ∧
    createMarketSale demo2 7 100 1 = .error .transferFromIncorrectOwner :=
  ⟨rfl, rfl, rfl, rfl⟩

/-- C9 (amended): `buy`'s only explicit `require` is the price equality,
and a never-minted id indeed has stored price 0, so a zero-value buy of
a phantom id passes the price check — but the custody-transfer step then
reverts (invalid token), so the call fails and mutates nothing; likewise
a listing already sold is no longer owned by the marketplace, so
re-buying it always fails (price mismatch or incorrect-owner at the
transfer), and the sold-count is never incremented by such calls. -/
theorem C9_buy_guard_amended (s : State) (hs : Reachable s) :
    (∀ sender tokenId, s.tokenIds < tokenId →
      (s.idToMarketItem tokenId).price = 0 ∧
      createMarketSale s sender 0 tokenId = .error .invalidTokenId) ∧
    (∀ sender value tokenId, sender ≠ s.thisAddr →
      (s.idToMarketItem tokenId).sold = true →
      ∃ e, createMarketSale s sender value tokenId = .error e) ∧
    (∀ sender value tokenId e, createMarketSale s sender value tokenId = .error e →
      applyCall s (Call.createMarketSale sender value tokenId) = s) := by
  have hI := reachable_minv hs
  refine ⟨?_, ?_, ?_⟩
  · intro sender tokenId htid
    have hdef : s.idToMarketItem tokenId = MarketItem.default0 :=
      hI.item_default tokenId (Or.inl htid)
    have hprice : (s.idToMarketItem tokenId).price = 0 := by
      rw [hdef]
      rfl
    have htok : s.tokenOwner tokenId = 0 := by
      by_contra hc
      have := hI.minted_le tokenId hc
      omega
    refine ⟨hprice, ?_⟩
    simp [createMarketSale, ercTransfer, hprice, htok]
  · intro sender value tokenId hsT hsold
    obtain ⟨hoT, ho0⟩ := hI.sold_owner tokenId hsold
    have htok : s.tokenOwner tokenId = (s.idToMarketItem tokenId).owner :=
      hI.own_match tokenId ho0 hoT
    by_cases hv : value = (s.idToMarketItem tokenId).price
    · refine ⟨.transferFromIncorrectOwner, ?_⟩
      have hnz : ¬ s.tokenOwner tokenId = 0 := by
        rw [htok]
        exact ho0
      have hne : ¬ s.tokenOwner tokenId = s.thisAddr := by
        rw [htok]
        exact hoT
      simp [createMarketSale, ercTransfer, hv, hnz, hne]
    · exact ⟨.priceMismatch, by simp [createMarketSale, hv]⟩
  · intro sender value tokenId e h
    simp only [applyCall, stepCall, h, Except.map]

theorem C9_buy_guard_amended_witness :
    createMarketSale demo0 9 0 12 = .error .invalidTokenId := by
  have h := (C9_buy_guard_amended demo0 demo0_reachable).1 9 12 (by decide)
  exact h.2

/-- C5: in every reachable state, a sold listing is not held by the
marketplace; `list_unsold` succeeds and returns exactly the listings
whose `owner` is the marketplace (every marketplace-held listing with an
id in `1..tokenIds` appears, and nothing else does), and the
pre-computed array size `tokenIds - itemsSold` equals the number of
marketplace-held listings, so no out-of-bounds write and no padding
entry is ever observable. -/
theorem C5_unsold_listings (s : State) (hs : Reachable s) :
    (∀ id, (s.idToMarketItem id).sold = true → (s.idToMarketItem id).owner ≠ s.thisAddr) ∧
    fetchMarketItems s = .ok (marketMatches s) ∧
    (∀ id, 1 ≤ id → id ≤ s.tokenIds → (s.idToMarketItem id).owner = s.thisAddr →
      s.idToMarketItem id ∈ marketMatches s) ∧
    (∀ m, m ∈ marketMatches s → m.owner = s.thisAddr) ∧
    s.tokenIds - s.itemsSold = (marketMatches s).length := by
  have hI := reachable_minv hs
  have hlen : (marketMatches s).length = countThis s := by
    unfold marketMatches countThis
    rw [List.length_map, ← List.countP_eq_length_filter]
  have hle := hI.count_eq
  refine ⟨?_, ?_, ?_, ?_, ?_⟩
  · intro id hsold
    exact (hI.sold_owner id hsold).1
  · have h1 : ¬ s.tokenIds < s.itemsSold := by omega
    have h2 : ¬ s.tokenIds - s.itemsSold < (marketMatches s).length := by
      rw [hlen]
      omega
    have h3 : s.tokenIds - s.itemsSold - (marketMatches s).length = 0 := by
      rw [hlen]
      omega
    simp [fetchMarketItems, h1, h2, h3]
  · intro id hge hle2 hown
    unfold marketMatches
    apply List.mem_map.mpr
    refine ⟨id - 1, ?_, by rw [(by omega : id - 1 + 1 = id)]⟩
    apply List.mem_filter.mpr
    refine ⟨List.mem_range.mpr (by omega), ?_⟩
    unfold heldByMarket
    rw [(by omega : id - 1 + 1 = id)]
    simp [hown]
  · intro m hm
    unfold marketMatches at hm
    obtain ⟨i, hi, hmi⟩ := List.mem_map.mp hm
    obtain ⟨hir, hip⟩ := List.mem_filter.mp hi
    unfold heldByMarket at hip
    rw [← hmi]
    exact of_decide_eq_true hip
  · rw [hlen]
    omega

theorem C5_unsold_listings_witness :
    fetchMarketItems demo1 = .ok (marketMatches demo1) ∧
    demo1.tokenIds - demo1.itemsSold = (marketMatches demo1).length := by
  have h := C5_unsold_listings demo1 demo1_reachable
  exact ⟨h.2.1, h.2.2.2.2⟩

/-- C8: `mint_and_list` fails `InvalidPrice` unless the price is
positive and `FeeMismatch` unless the attached value equals the listing
fee; on success it allocates the fresh id `tokenIds + 1`, strictly
greater than every previously minted id (ids are never reused), records
the listing with seller = caller, holder = marketplace, the given price
and `sold = false`, moves ERC721 custody to the marketplace, and the
`MarketItemCreated` notification carries exactly those fields. -/
theorem C8_mint_and_list (s : State) (hs : Reachable s) (sender value price : Nat)
    (uri : String) (h0 : sender ≠ 0) (h1 : sender ≠ s.thisAddr) :
    (price = 0 → createToken s sender value uri price = .error .invalidPrice) ∧
    (price ≠ 0 → value ≠ s.listingPrice →
      createToken s sender value uri price = .error .feeMismatch) ∧
    (price ≠ 0 → value = s.listingPrice →
      ∃ s', createToken s sender value uri price
          = .ok (s', s.tokenIds + 1, ⟨s.tokenIds + 1, sender, s.thisAddr, price, false⟩) ∧
        s'.tokenIds = s.tokenIds + 1 ∧
        s'.idToMarketItem (s.tokenIds + 1)
          = ⟨s.tokenIds + 1, sender, s.thisAddr, price, false⟩ ∧
        s'.tokenOwner (s.tokenIds + 1) = s.thisAddr ∧
        (∀ id, s.tokenOwner id ≠ 0 → id < s.tokenIds + 1)) := by
  have hI := reachable_minv hs
  have hfresh : s.tokenOwner (s.tokenIds + 1) = 0 := by
    by_contra hc
    have := hI.minted_le _ hc
    omega
  refine ⟨?_, ?_, ?_⟩
  · intro hp
    simp [createToken, ercMint, ercSetTokenURI, createMarketItem, upd, h0, hfresh, hp]
  · intro hp hv
    simp [createToken, ercMint, ercSetTokenURI, createMarketItem, upd, h0, hfresh, hp, hv]
  · intro hp hv
    obtain ⟨r, hr⟩ := createToken_succeeds hI uri h0 hp hv
    have hr' : createToken s sender value uri price = .ok (r.1, r.2.1, r.2.2) := by rw [hr]
    obtain ⟨_, _, _, _, _, hNid, hEv, hT, hO, hN, hIS, hL, hAuc, hBids, hBal, hU, hItem,
      hTok⟩ := createToken_ok hr'
    refine ⟨r.1, ?_, hN, ?_, ?_, ?_⟩
    · rw [hr', hNid, hEv]
    · rw [hItem (s.tokenIds + 1)]
      simp
    · rw [hTok (s.tokenIds + 1)]
      simp
    · intro id hne
      have := hI.minted_le id hne
      omega

theorem C8_mint_and_list_witness :
    ∃ s', createToken demo0 3 feeWei demoURI 100 = .ok (s', 1, ⟨1, 3, 1, 100, false⟩) ∧
      s'.tokenIds = 1 := by
  have h := (C8_mint_and_list demo0 demo0_reachable 3 feeWei 100 demoURI (by decide)
    (by decide)).2.2 (by decide) rfl
  obtain ⟨s', hok, hN, _⟩ := h
  exact ⟨s', hok, hN⟩

/-- C10: `relist` imposes no positivity requirement on the new price: in
every reachable state, whenever the recorded holder of a listing is the
(non-zero, non-marketplace) caller and the attached value equals the
listing fee, `resellToken` with new price 0 succeeds and sets the price
to 0 — although minting requires a positive price — after which `buy`
with attached value 0 succeeds on that listing for any non-zero buyer. -/
theorem C10_relist_zero_price (s : State) (hs : Reachable s) (sender tokenId : Nat)
    (h0 : sender ≠ 0) (h1 : sender ≠ s.thisAddr)
    (hown : (s.idToMarketItem tokenId).owner = sender) :
    ∃ s', resellToken s sender s.listingPrice tokenId 0 = .ok s' ∧
      (s'.idToMarketItem tokenId).price = 0 ∧ (s'.idToMarketItem tokenId).sold = false ∧
      ∀ buyer, buyer ≠ 0 →
        ∃ s'' outs, createMarketSale s' buyer 0 tokenId = .ok (s'', outs) := by
  have hI := reachable_minv hs
  obtain ⟨s', hok⟩ := resellToken_succeeds hI 0 h0 h1 hown
  obtain ⟨hh1, hh2, hh3, hh4, hh5, hT, hO, hN, hIS, hL, hAuc, hBids, hBal, hItem, hTok⟩ :=
    resellToken_ok hok
  have hprice : (s'.idToMarketItem tokenId).price = 0 := by
    rw [hItem tokenId]
    simp
  have hsold : (s'.idToMarketItem tokenId).sold = false := by
    rw [hItem tokenId]
    simp
  refine ⟨s', hok, hprice, hsold, ?_⟩
  intro buyer hb0
  have hto : s'.tokenOwner tokenId = s'.thisAddr := by
    rw [hTok tokenId, hT]
    simp
  have hbal : s'.listingPrice ≤ s'.balance + 0 := by
    rw [hL, hBal]
    omega
  obtain ⟨r, hr⟩ := createMarketSale_succeeds (by rw [hprice]) hto
    (by rw [hT]; exact hI.this_ne) hb0 hbal
  exact ⟨r.1, r.2, by rw [hr]⟩

theorem C10_relist_zero_price_witness :
    ∃ s', resellToken demo2 6 demo2.listingPrice 1 0 = .ok s' ∧
      (s'.idToMarketItem 1).price = 0 ∧ (s'.idToMarketItem 1).sold = false ∧
      ∀ buyer, buyer ≠ 0 → ∃ s'' outs, createMarketSale s' buyer 0 1 = .ok (s'', outs) :=
  C10_relist_zero_price demo2 demo2_reachable 6 1 (by decide) (by decide) rfl
